import Mathlib

/-!
# Verification of the hs-code-finder embedding codec, loader and search engine

Shallow embedding of the core of the `hs-code-finder` repository:

* `BinaryEmbeddingsService` — the binary codec for embedding collections
  (`src/services/binaryEmbeddings.ts`);
* `ClientVectorSearch` — the loader and cosine-similarity search engine
  (`src/services/vectorSearch.ts`, bundled in `utils/helpers.ts`);
* `FallbackSearch` — the keyword fallback ranker (`src/services/fallbackSearch.ts`).

Modelling conventions:

* JavaScript strings that the codec touches are modelled by their UTF-8 byte
  sequences (`List ℕ`, entries < 256), since `TextEncoder`/`TextDecoder` are
  inverse on valid UTF-8 and all codec operations are byte-level.
* Byte buffers (`Uint8Array` / `ArrayBuffer`) are `List ℕ`.  A `Uint8Array`
  store coerces its value mod 256, which the model applies at write time.
* `DataView` multi-byte reads are big-endian and throw `RangeError` when the
  access crosses the end of the buffer: modelled by `Option`, with `none`
  mapped to `DecodeError.rangeError`.  `Uint8Array.slice` clamps to the
  buffer, which is exactly `List.drop`/`List.take`.
* 32-bit floats are abstracted by a scalar type `F` together with
  `bits32 : F → ℕ` (the IEEE-754 float32 bit pattern of a stored number, after
  rounding to single precision) and `unbits32 : ℕ → F` (bit pattern back to a
  number).  `DataView.setFloat32` writes the four bytes of `bits32 v`;
  `getFloat32` reads them back and yields `unbits32` of the recombined word,
  so a stored value decodes to `unbits32 (bits32 v)` — "`v` rounded to
  float32".
* JavaScript numbers in the similarity engine are modelled as real numbers
  (the spec's cosine contract is about exact real arithmetic), and in the
  keyword ranker as rationals (only field operations occur there).
-/

namespace BinaryEmbeddingsService

/-- Big-endian bytes of a 16-bit store: `DataView.setUint16(_, n, false)`
wraps the value mod 2^16 and writes high byte then low byte. -/
def u16be (n : ℕ) : List ℕ := [n % 65536 / 256, n % 256]

/-- Big-endian bytes of a 32-bit store: `DataView.setUint32(_, n, false)`
wraps the value mod 2^32 and writes the four bytes most-significant first. -/
def u32be (n : ℕ) : List ℕ :=
  [n % 4294967296 / 16777216, n % 16777216 / 65536, n % 65536 / 256, n % 256]

/-- `DataView.getUint16(off, false)`: big-endian read of two bytes, `none`
(JavaScript: `RangeError`) when fewer than two bytes remain at `off`. -/
def readU16 (buf : List ℕ) (off : ℕ) : Option ℕ :=
  match buf.drop off with
  | b0 :: b1 :: _ => some (b0 * 256 + b1)
  | _ => none

/-- `DataView.getUint32(off, false)`: big-endian read of four bytes, `none`
(JavaScript: `RangeError`) when fewer than four bytes remain at `off`. -/
def readU32 (buf : List ℕ) (off : ℕ) : Option ℕ :=
  match buf.drop off with
  | b0 :: b1 :: b2 :: b3 :: _ => some (b0 * 16777216 + b1 * 65536 + b2 * 256 + b3)
  | _ => none

/-- `MAGIC_NUMBER = 0x48534345` ("HSCE"). -/
def MAGIC_NUMBER : ℕ := 0x48534345

/-- Binary format version written and accepted by the codec. -/
def VERSION : ℕ := 1

/-- One embedding record (`HSCodeEmbedding` in `types/hsCode.ts`), with string
fields as UTF-8 byte sequences and vector entries of the abstract float
type `F`. -/
structure HSCodeEmbedding (F : Type) where
  code : List ℕ
  menu : List ℕ
  description : List ℕ
  chapter : List ℕ
  «section» : List ℕ
  embedding : List F
  provider : List ℕ
  model : List ℕ
deriving DecidableEq

/-- Dataset metadata (`EmbeddingMetadata` in `types/hsCode.ts`); the encoder
uses only `provider` and `model`. -/
structure EmbeddingMetadata where
  provider : List ℕ
  model : List ℕ
  total_codes : ℕ
  embedding_dim : ℕ
deriving DecidableEq

/-- `encodeString` without a `maxLength`: `TextEncoder.encode` output, coerced
to bytes by the `Uint8Array` store. -/
def encodeString (s : List ℕ) : List ℕ := s.map (· % 256)

/-- `encodeString` with a `maxLength`: truncate when longer, otherwise
zero-pad to exactly `maxLength` bytes. -/
def encodeStringPadded (s : List ℕ) (maxLength : ℕ) : List ℕ :=
  let encoded := encodeString s
  if encoded.length > maxLength then encoded.take maxLength
  else encoded ++ List.replicate (maxLength - encoded.length) 0

/-- `decodeString`: scan for the first NUL byte and decode only the bytes
before it (the whole slice when no NUL is present). -/
def decodeString (bytes : List ℕ) : List ℕ := bytes.takeWhile (· != 0)

/-- One length-prefixed variable-width field as written by
`embeddingsToBinary`: a 2-byte big-endian length prefix (`setUint16` of the
actual encoded byte length) followed by the encoded bytes. -/
def encodeField (s : List ℕ) : List ℕ := u16be (encodeString s).length ++ encodeString s

variable {F : Type}

/-- The bytes written for one record by the encoder loop: five
length-prefixed fields (code, menu, description, chapter, section) followed by
the `setFloat32` images of the vector entries.  (`emb.menu || ''` is the
identity on the byte-sequence model: an absent/empty menu is `[]`.) -/
def encodeRecord (bits32 : F → ℕ) (emb : HSCodeEmbedding F) : List ℕ :=
  encodeField emb.code ++ encodeField emb.menu ++ encodeField emb.description ++
  encodeField emb.chapter ++ encodeField emb.«section» ++
  (emb.embedding.map (fun v => u32be (bits32 v))).flatten

/-- Sequential encoder loop over the records (`embeddings.forEach`). -/
def encodeRecords (bits32 : F → ℕ) : List (HSCodeEmbedding F) → List ℕ
  | [] => []
  | e :: rest => encodeRecord bits32 e ++ encodeRecords bits32 rest

/-- `BinaryEmbeddingsService.embeddingsToBinary`: header (magic, version,
dimension of the first record's vector, count), two 128-byte zero-padded
provider/model sections, then the records back to back.  Throws
(`Except.error`) on an empty collection.  The TypeScript code writes
sequentially into a buffer of exactly the computed total size, so the byte
stream is the concatenation of the sections. -/
def embeddingsToBinary (bits32 : F → ℕ) (embeddings : List (HSCodeEmbedding F))
    (metadata : EmbeddingMetadata) : Except String (List ℕ) :=
  match embeddings with
  | [] => .error "No embeddings to convert"
  | e0 :: _ =>
    .ok (u32be MAGIC_NUMBER ++ u32be VERSION ++ u32be e0.embedding.length ++
      u32be embeddings.length ++
      encodeStringPadded metadata.provider 128 ++ encodeStringPadded metadata.model 128 ++
      encodeRecords bits32 embeddings)

/-- Decoded header (`BinaryEmbeddingsHeader`). -/
structure BinaryEmbeddingsHeader where
  version : ℕ
  embeddingDim : ℕ
  totalCodes : ℕ
  provider : List ℕ
  model : List ℕ
deriving DecidableEq

/-- The three kinds of failure `binaryToEmbeddings` can produce:
`rangeError` — a `DataView` read crossed the end of the buffer;
`invalidFormat` — `'Invalid binary embeddings format'` (bad magic);
`unsupportedVersion v` — `'Unsupported binary format version: v'`. -/
inductive DecodeError where
  | rangeError : DecodeError
  | invalidFormat : DecodeError
  | unsupportedVersion : ℕ → DecodeError
deriving DecidableEq

/-- One variable-width field read by the decoder loop: `getUint16` length,
then `decodeString` of the (clamping) slice of that many bytes; the next
offset is past the declared length. -/
def readField (buf : List ℕ) (off : ℕ) : Option (List ℕ × ℕ) :=
  (readU16 buf off).map fun len =>
    (decodeString ((buf.drop (off + 2)).take len), off + 2 + len)

/-- The decoder's inner loop: `dim` successive `getFloat32` reads. -/
def readVector (unbits32 : ℕ → F) (buf : List ℕ) : ℕ → ℕ → Option (List F × ℕ)
  | 0, off => some ([], off)
  | dim + 1, off =>
    (readU32 buf off).bind fun w =>
      (readVector unbits32 buf dim (off + 4)).map fun p => (unbits32 w :: p.1, p.2)

/-- One record read by the decoder loop: five fields then the vector; the
record's `provider`/`model` come from the header. -/
def readRecord (unbits32 : ℕ → F) (buf : List ℕ) (provider model : List ℕ)
    (dim off : ℕ) : Option (HSCodeEmbedding F × ℕ) :=
  (readField buf off).bind fun c =>
  (readField buf c.2).bind fun m =>
  (readField buf m.2).bind fun d =>
  (readField buf d.2).bind fun ch =>
  (readField buf ch.2).bind fun se =>
  (readVector unbits32 buf dim se.2).map fun v =>
  (⟨c.1, m.1, d.1, ch.1, se.1, v.1, provider, model⟩, v.2)

/-- The decoder's outer loop: `totalCodes` successive records. -/
def readRecords (unbits32 : ℕ → F) (buf : List ℕ) (provider model : List ℕ)
    (dim : ℕ) : ℕ → ℕ → Option (List (HSCodeEmbedding F) × ℕ)
  | 0, off => some ([], off)
  | n + 1, off =>
    (readRecord unbits32 buf provider model dim off).bind fun r =>
      (readRecords unbits32 buf provider model dim n r.2).map fun p => (r.1 :: p.1, p.2)

/-- `BinaryEmbeddingsService.binaryToEmbeddings`: check magic and version,
read dimension and count, slice the two 128-byte provider/model sections
(`Uint8Array.slice` clamps), then read `totalCodes` records starting at
offset 272. -/
def binaryToEmbeddings (unbits32 : ℕ → F) (buffer : List ℕ) :
    Except DecodeError (List (HSCodeEmbedding F) × BinaryEmbeddingsHeader) :=
  match readU32 buffer 0 with
  | none => .error .rangeError
  | some magicNumber =>
    if magicNumber ≠ MAGIC_NUMBER then .error .invalidFormat else
    match readU32 buffer 4 with
    | none => .error .rangeError
    | some version =>
      if version ≠ VERSION then .error (.unsupportedVersion version) else
      match readU32 buffer 8 with
      | none => .error .rangeError
      | some embeddingDim =>
        match readU32 buffer 12 with
        | none => .error .rangeError
        | some totalCodes =>
          let provider := decodeString ((buffer.drop 16).take 128)
          let model := decodeString ((buffer.drop 144).take 128)
          match readRecords unbits32 buffer provider model embeddingDim totalCodes 272 with
          | none => .error .rangeError
          | some p =>
            .ok (p.1, ⟨version, embeddingDim, totalCodes, provider, model⟩)

end BinaryEmbeddingsService

namespace BinaryEmbeddingsService

/-! ## Codec lemmas -/

theorem u16be_length (n : ℕ) : (u16be n).length = 2 := rfl

theorem u32be_length (n : ℕ) : (u32be n).length = 4 := rfl

theorem encodeString_length (s : List ℕ) : (encodeString s).length = s.length := by
  simp [encodeString]

theorem encodeString_eq_self {s : List ℕ} (hb : ∀ b ∈ s, b < 256) :
    encodeString s = s := by
  simp only [encodeString]
  rw [List.map_congr_left fun b hbs => Nat.mod_eq_of_lt (hb b hbs), List.map_id']

theorem encodeStringPadded_length (s : List ℕ) (m : ℕ) :
    (encodeStringPadded s m).length = m := by
  simp only [encodeStringPadded]
  split
  next h => simp only [List.length_take]; omega
  next h => simp only [List.length_append, List.length_replicate]; omega

theorem encodeField_length (s : List ℕ) : (encodeField s).length = 2 + s.length := by
  simp [encodeField, u16be_length, encodeString_length]

theorem drop_append_length {α : Type} (pre buf : List α) (off : ℕ) :
    (pre ++ buf).drop (pre.length + off) = buf.drop off := by
  rw [← List.drop_drop, List.drop_left]

theorem readU16_append (pre rest : List ℕ) (n : ℕ) :
    readU16 (pre ++ (u16be n ++ rest)) pre.length = some (n % 65536) := by
  have hd : (pre ++ (u16be n ++ rest)).drop pre.length = u16be n ++ rest := by
    simpa using drop_append_length pre (u16be n ++ rest) 0
  rw [readU16, hd]
  simp only [u16be, List.cons_append, List.nil_append]
  congr 1
  omega

theorem readU32_append (pre rest : List ℕ) (n : ℕ) :
    readU32 (pre ++ (u32be n ++ rest)) pre.length = some (n % 4294967296) := by
  have hd : (pre ++ (u32be n ++ rest)).drop pre.length = u32be n ++ rest := by
    simpa using drop_append_length pre (u32be n ++ rest) 0
  rw [readU32, hd]
  simp only [u32be, List.cons_append, List.nil_append]
  congr 1
  omega

theorem decodeString_append_replicate {f : List ℕ} (k : ℕ) (h0 : ∀ b ∈ f, b ≠ 0) :
    decodeString (f ++ List.replicate k 0) = f := by
  induction f with
  | nil =>
    cases k <;> simp [decodeString, List.replicate]
  | cons b t ih =>
    have hb : b ≠ 0 := h0 b (by simp)
    have ht : ∀ x ∈ t, x ≠ 0 := fun x hx => h0 x (by simp [hx])
    simpa [decodeString, List.takeWhile_cons, hb] using ih ht

theorem decodeString_eq_self {f : List ℕ} (h0 : ∀ b ∈ f, b ≠ 0) :
    decodeString f = f := by
  have := decodeString_append_replicate (f := f) 0 h0
  simpa using this

theorem decodeString_encodeStringPadded {s : List ℕ} {m : ℕ} (hlen : s.length ≤ m)
    (hb : ∀ b ∈ s, b < 256) (h0 : ∀ b ∈ s, b ≠ 0) :
    decodeString (encodeStringPadded s m) = s := by
  rw [encodeStringPadded, encodeString_eq_self hb]
  rw [if_neg (by omega)]
  exact decodeString_append_replicate _ h0

/-- A byte string that survives the codec unchanged: fits the 16-bit length
prefix, consists of bytes, and contains no NUL byte (which `decodeString`
would stop at). -/
def cleanString (f : List ℕ) : Prop :=
  f.length < 65536 ∧ (∀ b ∈ f, b < 256) ∧ (∀ b ∈ f, b ≠ 0)

instance (f : List ℕ) : Decidable (cleanString f) := by
  unfold cleanString
  infer_instance

theorem readField_at (buf pre rest f : List ℕ) (off : ℕ)
    (hbuf : buf = pre ++ (encodeField f ++ rest)) (hoff : off = pre.length)
    (hf : cleanString f) :
    readField buf off = some (f, off + 2 + f.length) := by
  obtain ⟨hlen, hb, h0⟩ := hf
  have hcf : encodeString f = f := encodeString_eq_self hb
  have hbuf2 : buf = pre ++ (u16be f.length ++ (f ++ rest)) := by
    rw [hbuf, encodeField, hcf, List.append_assoc]
  have h16 := readU16_append pre (f ++ rest) f.length
  rw [Nat.mod_eq_of_lt hlen] at h16
  have hd2 : buf.drop (off + 2) = f ++ rest := by
    have hl2 : off + 2 = (pre ++ u16be f.length).length := by
      simp [hoff, u16be_length]
    rw [hbuf2, hl2, ← List.append_assoc]
    simpa using drop_append_length (pre ++ u16be f.length) (f ++ rest) 0
  rw [readField, hbuf2, hoff, h16]
  simp only [Option.map_some']
  rw [← hbuf2, ← hoff, hd2, List.take_left, decodeString_eq_self h0, hoff]

theorem readU32_at (buf pre rest : List ℕ) (off n : ℕ)
    (hbuf : buf = pre ++ (u32be n ++ rest)) (hoff : off = pre.length)
    (hn : n < 4294967296) :
    readU32 buf off = some n := by
  have := readU32_append pre rest n
  rw [Nat.mod_eq_of_lt hn] at this
  rw [hbuf, hoff]
  exact this

theorem flatten_u32be_length {F : Type} (bits32 : F → ℕ) (l : List F) :
    ((l.map (fun v => u32be (bits32 v))).flatten).length = 4 * l.length := by
  induction l with
  | nil => simp
  | cons v t ih => simp [ih, u32be_length]; omega

theorem readVector_at {F : Type} (unbits32 : ℕ → F) (bits32 : F → ℕ)
    (vec : List F) (hv : ∀ v ∈ vec, bits32 v < 4294967296) :
    ∀ (buf pre rest : List ℕ) (off : ℕ),
      buf = pre ++ ((vec.map (fun v => u32be (bits32 v))).flatten ++ rest) →
      off = pre.length →
      readVector unbits32 buf vec.length off
        = some (vec.map (fun v => unbits32 (bits32 v)), off + 4 * vec.length) := by
  induction vec with
  | nil =>
    intro buf pre rest off hbuf hoff
    simp [readVector]
  | cons v t ih =>
    intro buf pre rest off hbuf hoff
    have hv0 : bits32 v < 4294967296 := hv v (by simp)
    have hvt : ∀ x ∈ t, bits32 x < 4294967296 := fun x hx => hv x (by simp [hx])
    have hbuf2 : buf = pre ++ (u32be (bits32 v) ++
        ((t.map (fun x => u32be (bits32 x))).flatten ++ rest)) := by
      simpa [List.append_assoc] using hbuf
    have h32 := readU32_at buf pre _ off (bits32 v) hbuf2 hoff hv0
    have hrec := ih hvt buf (pre ++ u32be (bits32 v))
      rest (off + 4)
      (by rw [hbuf2, List.append_assoc])
      (by simp [hoff, u32be_length])
    show readVector unbits32 buf (t.length + 1) off = _
    rw [readVector, h32, Option.some_bind, hrec, Option.map_some']
    refine congrArg some (Prod.ext ?_ ?_)
    · simp
    · simp
      omega

/-- A record all of whose variable-width string fields survive the codec. -/
def cleanRecord (r : HSCodeEmbedding F) : Prop :=
  cleanString r.code ∧ cleanString r.menu ∧ cleanString r.description ∧
  cleanString r.chapter ∧ cleanString r.«section»

instance (r : HSCodeEmbedding F) : Decidable (cleanRecord r) := by
  unfold cleanRecord
  infer_instance

/-- The decoder's image of an encoded record: string fields unchanged, vector
entries rounded through the float32 bit pattern, provider/model taken from
the header. -/
def decodedRecord (bits32 : F → ℕ) (unbits32 : ℕ → F) (provider model : List ℕ)
    (r : HSCodeEmbedding F) : HSCodeEmbedding F :=
  ⟨r.code, r.menu, r.description, r.chapter, r.«section»,
    r.embedding.map (fun v => unbits32 (bits32 v)), provider, model⟩

theorem readRecord_at (unbits32 : ℕ → F) (bits32 : F → ℕ)
    (buf pre rest prov mdl : List ℕ) (r : HSCodeEmbedding F) (off : ℕ)
    (hbuf : buf = pre ++ (encodeRecord bits32 r ++ rest)) (hoff : off = pre.length)
    (hr : cleanRecord r) (hv : ∀ v ∈ r.embedding, bits32 v < 4294967296) :
    readRecord unbits32 buf prov mdl r.embedding.length off
      = some (decodedRecord bits32 unbits32 prov mdl r,
          off + (encodeRecord bits32 r).length) := by
  obtain ⟨hc, hm, hd, hch, hs⟩ := hr
  have h1 : buf = pre ++ (encodeField r.code ++ (encodeField r.menu ++
      (encodeField r.description ++ (encodeField r.chapter ++
      (encodeField r.«section» ++
      ((r.embedding.map (fun v => u32be (bits32 v))).flatten ++ rest)))))) := by
    rw [hbuf, encodeRecord]
    simp [List.append_assoc]
  have e1 := readField_at buf pre _ r.code off h1 hoff hc
  have h2 : buf = (pre ++ encodeField r.code) ++ (encodeField r.menu ++
      (encodeField r.description ++ (encodeField r.chapter ++
      (encodeField r.«section» ++
      ((r.embedding.map (fun v => u32be (bits32 v))).flatten ++ rest))))) := by
    rw [h1]; simp [List.append_assoc]
  have e2 := readField_at buf (pre ++ encodeField r.code) _ r.menu
    (off + 2 + r.code.length) h2
    (by simp [hoff, encodeField_length]; omega) hm
  have h3 : buf = (pre ++ encodeField r.code ++ encodeField r.menu) ++
      (encodeField r.description ++ (encodeField r.chapter ++
      (encodeField r.«section» ++
      ((r.embedding.map (fun v => u32be (bits32 v))).flatten ++ rest)))) := by
    rw [h1]; simp [List.append_assoc]
  have e3 := readField_at buf (pre ++ encodeField r.code ++ encodeField r.menu) _
    r.description (off + 2 + r.code.length + 2 + r.menu.length) h3
    (by simp [hoff, encodeField_length]; omega) hd
  have h4 : buf = (pre ++ encodeField r.code ++ encodeField r.menu ++
      encodeField r.description) ++ (encodeField r.chapter ++
      (encodeField r.«section» ++
      ((r.embedding.map (fun v => u32be (bits32 v))).flatten ++ rest))) := by
    rw [h1]; simp [List.append_assoc]
  have e4 := readField_at buf (pre ++ encodeField r.code ++ encodeField r.menu ++
      encodeField r.description) _
    r.chapter (off + 2 + r.code.length + 2 + r.menu.length + 2 + r.description.length) h4
    (by simp [hoff, encodeField_length]; omega) hch
  have h5 : buf = (pre ++ encodeField r.code ++ encodeField r.menu ++
      encodeField r.description ++ encodeField r.chapter) ++
      (encodeField r.«section» ++
      ((r.embedding.map (fun v => u32be (bits32 v))).flatten ++ rest)) := by
    rw [h1]; simp [List.append_assoc]
  have e5 := readField_at buf (pre ++ encodeField r.code ++ encodeField r.menu ++
      encodeField r.description ++ encodeField r.chapter) _
    r.«section»
    (off + 2 + r.code.length + 2 + r.menu.length + 2 + r.description.length +
      2 + r.chapter.length) h5
    (by simp [hoff, encodeField_length]; omega) hs
  have h6 : buf = (pre ++ encodeField r.code ++ encodeField r.menu ++
      encodeField r.description ++ encodeField r.chapter ++
      encodeField r.«section») ++
      ((r.embedding.map (fun v => u32be (bits32 v))).flatten ++ rest) := by
    rw [h1]; simp [List.append_assoc]
  have e6 := readVector_at unbits32 bits32 r.embedding hv buf
    (pre ++ encodeField r.code ++ encodeField r.menu ++
      encodeField r.description ++ encodeField r.chapter ++ encodeField r.«section»)
    rest
    (off + 2 + r.code.length + 2 + r.menu.length + 2 + r.description.length +
      2 + r.chapter.length + 2 + r.«section».length) h6
    (by simp [hoff, encodeField_length]; omega)
  rw [readRecord]
  simp only [e1, Option.some_bind, e2, e3, e4, e5, e6, Option.map_some']
  refine congrArg some (Prod.ext rfl ?_)
  simp only [encodeRecord, encodeField_length, flatten_u32be_length,
    List.length_append]
  omega

theorem readRecords_at (unbits32 : ℕ → F) (bits32 : F → ℕ) (prov mdl : List ℕ)
    (dim : ℕ) :
    ∀ (l : List (HSCodeEmbedding F)) (buf pre rest : List ℕ) (off : ℕ),
      buf = pre ++ (encodeRecords bits32 l ++ rest) → off = pre.length →
      (∀ r ∈ l, cleanRecord r) → (∀ r ∈ l, r.embedding.length = dim) →
      (∀ r ∈ l, ∀ v ∈ r.embedding, bits32 v < 4294967296) →
      readRecords unbits32 buf prov mdl dim l.length off
        = some (l.map (decodedRecord bits32 unbits32 prov mdl),
            off + (encodeRecords bits32 l).length) := by
  intro l
  induction l with
  | nil =>
    intro buf pre rest off hbuf hoff _ _ _
    simp [readRecords, encodeRecords]
  | cons r t ih =>
    intro buf pre rest off hbuf hoff hclean hdim hv
    have hcr : cleanRecord r := hclean r (by simp)
    have hrd : r.embedding.length = dim := hdim r (by simp)
    have hrv : ∀ v ∈ r.embedding, bits32 v < 4294967296 := hv r (by simp)
    have hbuf1 : buf = pre ++ (encodeRecord bits32 r ++
        (encodeRecords bits32 t ++ rest)) := by
      rw [hbuf, encodeRecords]
      simp [List.append_assoc]
    have e1 := readRecord_at unbits32 bits32 buf pre _ prov mdl r off hbuf1 hoff hcr hrv
    rw [hrd] at e1
    have e2 := ih buf (pre ++ encodeRecord bits32 r) rest
      (off + (encodeRecord bits32 r).length)
      (by rw [hbuf1]; simp [List.append_assoc])
      (by simp [hoff])
      (fun x hx => hclean x (by simp [hx]))
      (fun x hx => hdim x (by simp [hx]))
      (fun x hx => hv x (by simp [hx]))
    show readRecords unbits32 buf prov mdl dim (t.length + 1) off = _
    rw [readRecords]
    simp only [e1, Option.some_bind, e2, Option.map_some']
    refine congrArg some (Prod.ext (by simp [decodedRecord]) ?_)
    simp only [encodeRecords, List.length_append]
    omega

/-- `DataView` read fails when the buffer is too short. -/
theorem readU32_none_of_short {buf : List ℕ} {off : ℕ} (h : buf.length < off + 4) :
    readU32 buf off = none := by
  have hlen : (buf.drop off).length < 4 := by
    rw [List.length_drop]; omega
  rw [readU32]
  rcases hl : buf.drop off with _ | ⟨a, _ | ⟨b, _ | ⟨c, _ | ⟨d, t⟩⟩⟩⟩
  · rfl
  · rfl
  · rfl
  · rfl
  · rw [hl] at hlen
    simp only [List.length_cons] at hlen
    omega

/-- The decoder's outer loop always produces exactly the declared number of
records when it succeeds. -/
theorem readRecords_length (unbits32 : ℕ → F) (buf prov mdl : List ℕ) (dim : ℕ) :
    ∀ (n off : ℕ) (p : List (HSCodeEmbedding F) × ℕ),
      readRecords unbits32 buf prov mdl dim n off = some p → p.1.length = n := by
  intro n
  induction n with
  | zero =>
    intro off p h
    rw [readRecords] at h
    have := Option.some.inj h
    simp [← this]
  | succ k ih =>
    intro off p h
    rw [readRecords] at h
    rcases h1 : readRecord unbits32 buf prov mdl dim off with _ | q
    · rw [h1] at h; simp at h
    · rw [h1, Option.some_bind] at h
      rcases h2 : readRecords unbits32 buf prov mdl dim k q.2 with _ | p2
      · rw [h2] at h; simp at h
      · rw [h2, Option.map_some'] at h
        have := ih q.2 p2 h2
        cases h
        simp [this]

/-- Full decode-of-encode: under the cleanliness hypotheses, decoding the
encoder's output recovers every record (vector entries rounded through the
float32 bit pattern) and the header. -/
theorem binaryToEmbeddings_embeddingsToBinary
    (bits32 : F → ℕ) (unbits32 : ℕ → F)
    (e0 : HSCodeEmbedding F) (tl : List (HSCodeEmbedding F))
    (meta : EmbeddingMetadata) (buf : List ℕ)
    (henc : embeddingsToBinary bits32 (e0 :: tl) meta = .ok buf)
    (hclean : ∀ r ∈ e0 :: tl, cleanRecord r)
    (hdim : ∀ r ∈ e0 :: tl, r.embedding.length = e0.embedding.length)
    (hv : ∀ r ∈ e0 :: tl, ∀ v ∈ r.embedding, bits32 v < 4294967296)
    (hcount : (e0 :: tl).length < 4294967296)
    (hdim32 : e0.embedding.length < 4294967296)
    (hprovLen : meta.provider.length ≤ 128)
    (hprovB : ∀ b ∈ meta.provider, b < 256) (hprov0 : ∀ b ∈ meta.provider, b ≠ 0)
    (hmdlLen : meta.model.length ≤ 128)
    (hmdlB : ∀ b ∈ meta.model, b < 256) (hmdl0 : ∀ b ∈ meta.model, b ≠ 0) :
    binaryToEmbeddings unbits32 buf
      = .ok ((e0 :: tl).map (decodedRecord bits32 unbits32 meta.provider meta.model),
          ⟨VERSION, e0.embedding.length, (e0 :: tl).length,
            meta.provider, meta.model⟩) := by
  have hbuf : buf = u32be MAGIC_NUMBER ++ u32be VERSION ++
      u32be e0.embedding.length ++ u32be (e0 :: tl).length ++
      encodeStringPadded meta.provider 128 ++ encodeStringPadded meta.model 128 ++
      encodeRecords bits32 (e0 :: tl) := by
    rw [embeddingsToBinary] at henc
    exact (Except.ok.inj henc).symm
  have hmagic := readU32_at buf [] (u32be VERSION ++
      (u32be e0.embedding.length ++ (u32be (e0 :: tl).length ++
      (encodeStringPadded meta.provider 128 ++ (encodeStringPadded meta.model 128 ++
      encodeRecords bits32 (e0 :: tl)))))) 0 MAGIC_NUMBER
    (by rw [hbuf]; simp [List.append_assoc]) rfl (by norm_num [MAGIC_NUMBER])
  have hversion := readU32_at buf (u32be MAGIC_NUMBER)
      (u32be e0.embedding.length ++ (u32be (e0 :: tl).length ++
      (encodeStringPadded meta.provider 128 ++ (encodeStringPadded meta.model 128 ++
      encodeRecords bits32 (e0 :: tl))))) 4 VERSION
    (by rw [hbuf]; simp [List.append_assoc]) (by simp [u32be_length])
    (by norm_num [VERSION])
  have hdimr := readU32_at buf (u32be MAGIC_NUMBER ++ u32be VERSION)
      (u32be (e0 :: tl).length ++
      (encodeStringPadded meta.provider 128 ++ (encodeStringPadded meta.model 128 ++
      encodeRecords bits32 (e0 :: tl)))) 8 e0.embedding.length
    (by rw [hbuf]; simp [List.append_assoc])
    (by simp [u32be_length]) hdim32
  have hcountr := readU32_at buf
      (u32be MAGIC_NUMBER ++ u32be VERSION ++ u32be e0.embedding.length)
      (encodeStringPadded meta.provider 128 ++ (encodeStringPadded meta.model 128 ++
      encodeRecords bits32 (e0 :: tl))) 12 (e0 :: tl).length
    (by rw [hbuf]; simp [List.append_assoc])
    (by simp [u32be_length]) hcount
  have hpre16 : (u32be MAGIC_NUMBER ++ u32be VERSION ++ u32be e0.embedding.length ++
      u32be (e0 :: tl).length).length = 16 := by
    simp [u32be_length]
  have hdrop16 : buf.drop 16 = encodeStringPadded meta.provider 128 ++
      (encodeStringPadded meta.model 128 ++ encodeRecords bits32 (e0 :: tl)) := by
    rw [hbuf, ← hpre16]
    have := drop_append_length
      (u32be MAGIC_NUMBER ++ u32be VERSION ++ u32be e0.embedding.length ++
        u32be (e0 :: tl).length)
      (encodeStringPadded meta.provider 128 ++
        (encodeStringPadded meta.model 128 ++ encodeRecords bits32 (e0 :: tl))) 0
    simpa [List.append_assoc] using this
  have hprovider : decodeString ((buf.drop 16).take 128) = meta.provider := by
    rw [hdrop16]
    rw [List.take_left' (encodeStringPadded_length meta.provider 128)]
    exact decodeString_encodeStringPadded hprovLen hprovB hprov0
  have hpre144 : (u32be MAGIC_NUMBER ++ u32be VERSION ++ u32be e0.embedding.length ++
      u32be (e0 :: tl).length ++ encodeStringPadded meta.provider 128).length = 144 := by
    simp [u32be_length, encodeStringPadded_length]
  have hdrop144 : buf.drop 144 = encodeStringPadded meta.model 128 ++
      encodeRecords bits32 (e0 :: tl) := by
    rw [hbuf, ← hpre144]
    have := drop_append_length
      (u32be MAGIC_NUMBER ++ u32be VERSION ++ u32be e0.embedding.length ++
        u32be (e0 :: tl).length ++ encodeStringPadded meta.provider 128)
      (encodeStringPadded meta.model 128 ++ encodeRecords bits32 (e0 :: tl)) 0
    simpa [List.append_assoc] using this
  have hmodel : decodeString ((buf.drop 144).take 128) = meta.model := by
    rw [hdrop144]
    rw [List.take_left' (encodeStringPadded_length meta.model 128)]
    exact decodeString_encodeStringPadded hmdlLen hmdlB hmdl0
  have hrecs := readRecords_at unbits32 bits32 meta.provider meta.model
    e0.embedding.length (e0 :: tl) buf
    (u32be MAGIC_NUMBER ++ u32be VERSION ++ u32be e0.embedding.length ++
      u32be (e0 :: tl).length ++ encodeStringPadded meta.provider 128 ++
      encodeStringPadded meta.model 128)
    [] 272
    (by rw [hbuf]; simp [List.append_assoc])
    (by simp [u32be_length, encodeStringPadded_length])
    hclean hdim hv
  rw [binaryToEmbeddings, hmagic]
  simp only [ne_eq, not_true_eq_false, if_false, reduceIte, hversion, hdimr, hcountr,
    hprovider, hmodel, hrecs]

/-- A buffer shorter than the 4-byte magic fails with a range error. -/
theorem binaryToEmbeddings_short (unbits32 : ℕ → F) (buf : List ℕ)
    (h : buf.length < 4) : binaryToEmbeddings unbits32 buf = .error .rangeError := by
  rw [binaryToEmbeddings, readU32_none_of_short (by omega)]

/-- Wrong magic fails with exactly the invalid-format error. -/
theorem binaryToEmbeddings_invalidFormat (unbits32 : ℕ → F) (buf : List ℕ) (m : ℕ)
    (h0 : readU32 buf 0 = some m) (hm : m ≠ MAGIC_NUMBER) :
    binaryToEmbeddings unbits32 buf = .error .invalidFormat := by
  rw [binaryToEmbeddings, h0]
  simp only [if_pos hm]

/-- Unrecognized version fails with exactly the unsupported-version error,
carrying the version read. -/
theorem binaryToEmbeddings_unsupportedVersion (unbits32 : ℕ → F) (buf : List ℕ)
    (v : ℕ) (h0 : readU32 buf 0 = some MAGIC_NUMBER) (h4 : readU32 buf 4 = some v)
    (hv : v ≠ VERSION) :
    binaryToEmbeddings unbits32 buf = .error (.unsupportedVersion v) := by
  rw [binaryToEmbeddings, h0]
  simp only [ne_eq, not_true_eq_false, if_false, reduceIte, h4, if_pos hv]

/-- A successful decode returns exactly as many records as the header
declares: no partial record list is ever returned. -/
theorem binaryToEmbeddings_count (unbits32 : ℕ → F) (buf : List ℕ)
    (p : List (HSCodeEmbedding F) × BinaryEmbeddingsHeader)
    (h : binaryToEmbeddings unbits32 buf = .ok p) :
    p.1.length = p.2.totalCodes := by
  rw [binaryToEmbeddings] at h
  split at h
  · cases h
  split at h
  · cases h
  split at h
  · cases h
  split at h
  · cases h
  split at h
  · cases h
  split at h
  · cases h
  dsimp only at h
  split at h
  · cases h
  next q hq =>
    have hl := readRecords_length unbits32 buf _ _ _ _ _ _ hq
    have := Except.ok.inj h
    rw [← this]
    simpa using hl

end BinaryEmbeddingsService

namespace ClientVectorSearch

open BinaryEmbeddingsService

variable {F : Type}

/-- The JSON document the loader's textual fallback parses: `data.hs_codes`
may be absent (`data.hs_codes || []` in the source). -/
structure JsonDoc (F : Type) where
  hs_codes : Option (List (HSCodeEmbedding F))
deriving DecidableEq

/-- A resolved `fetch` response: the HTTP `ok` flag plus the outcome of
reading the body as bytes (`arrayBuffer()`) or as parsed JSON (`json()`);
either body read can itself reject. -/
structure FetchResponse (F : Type) where
  ok : Bool
  bytes : Except String (List ℕ)
  jsonDoc : Except String (JsonDoc F)

/-- Outcome of `await fetch(path)`: a rejected promise (network/transport
error) or a response. -/
inductive FetchOutcome (F : Type) where
  | reject : String → FetchOutcome F
  | response : FetchResponse F → FetchOutcome F

/-- The environment a load runs against: what `fetch` does for each path. -/
def FetchEnv (F : Type) := String → FetchOutcome F

/-- The mutable fields of a `ClientVectorSearch` instance. -/
structure SearchState (F : Type) where
  hsCodesData : List (HSCodeEmbedding F)
  currentProvider : String
  currentModel : String
deriving DecidableEq

/-- One `loadPrecomputedEmbeddings` call, observed: the paths passed to
`fetch` in order, the instance state after the call returns or throws, and
whether it returned normally or threw. -/
structure LoadResult (F : Type) where
  attempted : List String
  state : SearchState F
  outcome : Except String Unit

/-- `provider.toLowerCase()`: lowercase character by character. -/
def lowerCase (s : String) : String := ⟨s.data.map Char.toLower⟩

/-- `modelKey = model.replace(/\./g, '-')`: every `.` becomes `-` (a
single-character global replace is a character map). -/
def modelKeyOf (model : String) : String :=
  ⟨model.data.map (fun c => if c = '.' then '-' else c)⟩

/-- The canonical binary resource path for a provider/model pair. -/
def binaryPathOf (provider model : String) : String :=
  "/data/" ++ lowerCase provider ++ "-embeddings/" ++ modelKeyOf model ++ ".bin"

/-- The canonical JSON resource path for a provider/model pair. -/
def jsonPathOf (provider model : String) : String :=
  "/data/" ++ lowerCase provider ++ "-embeddings/" ++ modelKeyOf model ++ ".json"

/-- The message of the error rethrown by the loader's catch-all handler. -/
def loadErrorMessage (provider model : String) : String :=
  "Could not load embeddings for " ++ provider ++ "/" ++ model

/-- `ClientVectorSearch.loadPrecomputedEmbeddings`, state-passing form.
The whole body sits in one `try`: any rejection or thrown error lands in the
catch block, which rethrows `loadErrorMessage` — in particular a rejected
binary `fetch` aborts the call before the JSON path is ever fetched.  The
instance fields are only assigned after a body read and decode/parse have
succeeded, inside the same branch. -/
def loadPrecomputedEmbeddings (env : FetchEnv F) (unbits32 : ℕ → F)
    (provider model : String) (s : SearchState F) : LoadResult F :=
  let binaryPath := binaryPathOf provider model
  let jsonPath := jsonPathOf provider model
  match env binaryPath with
  | .reject _ => ⟨[binaryPath], s, .error (loadErrorMessage provider model)⟩
  | .response r =>
    if r.ok then
      match r.bytes with
      | .error _ => ⟨[binaryPath], s, .error (loadErrorMessage provider model)⟩
      | .ok buffer =>
        match binaryToEmbeddings unbits32 buffer with
        | .error _ => ⟨[binaryPath], s, .error (loadErrorMessage provider model)⟩
        | .ok p => ⟨[binaryPath], ⟨p.1, provider, model⟩, .ok ()⟩
    else
      match env jsonPath with
      | .reject _ => ⟨[binaryPath, jsonPath], s, .error (loadErrorMessage provider model)⟩
      | .response jr =>
        if !jr.ok then
          ⟨[binaryPath, jsonPath], s, .error (loadErrorMessage provider model)⟩
        else
          match jr.jsonDoc with
          | .error _ =>
            ⟨[binaryPath, jsonPath], s, .error (loadErrorMessage provider model)⟩
          | .ok data =>
            ⟨[binaryPath, jsonPath], ⟨data.hs_codes.getD [], provider, model⟩, .ok ()⟩

/-- `vecA.reduce((sum, a, i) => sum + a * vecB[i], 0)`: the running sum of
componentwise products (the guard has already ensured equal lengths, so the
indexed access is total). -/
noncomputable def dotProduct (vecA vecB : List ℝ) : ℝ :=
  (List.zipWith (fun a b => a * b) vecA vecB).foldl (· + ·) 0

/-- `vec.reduce((sum, a) => sum + a * a, 0)`: the sum of squares under the
square root in the magnitude computations. -/
noncomputable def sumSquares (vec : List ℝ) : ℝ :=
  (vec.map (fun a => a * a)).foldl (· + ·) 0

/-- `ClientVectorSearch.cosineSimilarity`: throws on a length mismatch; a
zero magnitude on either side yields exactly 0; otherwise the normalized dot
product.  JavaScript numbers are modelled as reals. -/
noncomputable def cosineSimilarity (vecA vecB : List ℝ) : Except String ℝ :=
  if vecA.length ≠ vecB.length then .error "Vectors must have same dimension"
  else
    let magnitudeA := Real.sqrt (sumSquares vecA)
    let magnitudeB := Real.sqrt (sumSquares vecB)
    if magnitudeA = 0 ∨ magnitudeB = 0 then .ok 0
    else .ok (dotProduct vecA vecB / (magnitudeA * magnitudeB))

/-- A scored search result: the record spread together with its `similarity`
and `source: 'vector'` tag. -/
structure SearchResult where
  record : HSCodeEmbedding ℝ
  similarity : ℝ
  source : String

/-- The engine's `.map` step: score every record against the query; a thrown
`cosineSimilarity` error aborts the whole map with the first failure. -/
noncomputable def scoreResults (queryEmbedding : List ℝ) :
    List (HSCodeEmbedding ℝ) → Except String (List SearchResult)
  | [] => .ok []
  | r :: t =>
    match cosineSimilarity queryEmbedding r.embedding with
    | .error e => .error e
    | .ok sim =>
      match scoreResults queryEmbedding t with
      | .error e => .error e
      | .ok rest => .ok (⟨r, sim, "vector"⟩ :: rest)

/-- The engine's `.sort((a, b) => b.similarity - a.similarity)`:
`Array.prototype.sort` is stable, and a stable sort into descending
similarity order is insertion sort with the non-strict comparison. -/
noncomputable def sortBySimilarity (l : List SearchResult) : List SearchResult :=
  List.insertionSort (fun a b => b.similarity ≤ a.similarity) l

/-- The core of `ClientVectorSearch.search`, after the query embedding has
been produced and the collection loaded: the empty-collection guard, the
dimension guard against `provider.dimensions`, then score, sort descending
and `slice(0, topK)`. -/
noncomputable def search (queryEmbedding : List ℝ) (dimensions : ℕ)
    (hsCodesData : List (HSCodeEmbedding ℝ)) (topK : ℕ) :
    Except String (List SearchResult) :=
  if hsCodesData.length = 0 then .error "No precomputed embeddings available"
  else if queryEmbedding.length ≠ dimensions then
    .error ("Embedding dimension mismatch: query (" ++ toString queryEmbedding.length ++
      ") vs expected (" ++ toString dimensions ++ ")")
  else
    match scoreResults queryEmbedding hsCodesData with
    | .error e => .error e
    | .ok results => .ok ((sortBySimilarity results).take topK)

end ClientVectorSearch

namespace FallbackSearch

/-- The UI language (`'en' | 'vi'` in `LanguageContext`). -/
inductive Language where
  | en : Language
  | vi : Language
deriving DecidableEq

/-- A fallback-dataset record (`HSCode` in `types/hsCode.ts`, dual-language
form): text fields are character sequences; the `_vi` fields and the keyword
lists are optional. -/
structure HSCode where
  code : List Char
  menu : List Char
  menu_vi : Option (List Char)
  description : List Char
  description_vi : Option (List Char)
  chapter : List Char
  «section» : List Char
  keywords : Option (List (List Char))
  keywords_vi : Option (List (List Char))
deriving DecidableEq

/-- `query.toLowerCase().split(/\s+/).filter(word => word.length > 2)`.
Splitting at every whitespace character can produce empty chunks where the
JavaScript `\s+` split collapses runs, but the length filter removes all of
them either way, so the token lists agree. -/
def tokenize (query : List Char) : List (List Char) :=
  ((query.map Char.toLower).splitOnP (fun c => c.isWhitespace)).filter
    (fun word => word.length > 2)

/-- Modelled from the spec: the language-aware search blob of
`calculateKeywordScore`.  The `fallbackSearch.ts` revision carrying the
`language` parameter is not present under `src/` (its caller
`useHSCodeSearch.ts` already passes `language`); spec §4.4 says the blob is
built from `description`/`descriptionAlt` and `keywords`/`keywordsAlt`
selected by `language`, falling back to the non-alt field whenever the alt
field is absent, then lowercased --
`` `${description} ${keywords?.join(' ') || ''}`.toLowerCase() ``. -/
def searchBlob (language : Language) (hsCode : HSCode) : List Char :=
  let description :=
    match language with
    | .vi => hsCode.description_vi.getD hsCode.description
    | .en => hsCode.description
  let keywords :=
    match language with
    | .vi => hsCode.keywords_vi.getD (hsCode.keywords.getD [])
    | .en => hsCode.keywords.getD []
  (description ++ [' '] ++ List.intercalate [' '] keywords).map Char.toLower

/-- `FallbackSearch.calculateKeywordScore` over the language-aware blob:
each query word found in the blob contributes `min(wordLength / blobLength *
10, 1)`; the sum is damped by the matched fraction and clamped to 1.
JavaScript numbers are modelled as rationals. -/
def calculateKeywordScore (queryWords : List (List Char)) (hsCode : HSCode)
    (language : Language) : ℚ :=
  let text := searchBlob language hsCode
  let textLength : ℚ := text.length
  if text.length = 0 then 0
  else
    let matched := queryWords.filter (fun word => decide (word <:+: text))
    let score : ℚ := (matched.map (fun word => min ((word.length : ℚ) / textLength * 10) 1)).sum
    let matchRatio : ℚ := (matched.length : ℚ) / (queryWords.length : ℚ)
    min (score * matchRatio) 1

/-- A fallback search result: the record with its keyword score
(`similarity`) and `source: 'keyword-fallback'` tag. -/
structure FallbackResult where
  hsCode : HSCode
  similarity : ℚ
  source : String
deriving DecidableEq

/-- `FallbackSearch.search`: empty when no data is loaded or no query word
survives tokenization; otherwise score all records, drop scores ≤ 0.05, sort
descending (stable) and take `topK`. -/
def search (query : List Char) (topK : ℕ) (language : Language)
    (isLoaded : Bool) (hsCodesData : List HSCode) : List FallbackResult :=
  if !isLoaded || hsCodesData.length = 0 then []
  else
    let queryWords := tokenize query
    if queryWords.length = 0 then []
    else
      let results := (hsCodesData.map (fun hsCode =>
          (⟨hsCode, calculateKeywordScore queryWords hsCode language,
            "keyword-fallback"⟩ : FallbackResult))).filter
        (fun result => decide (result.similarity > 0.05))
      (List.insertionSort (fun a b => b.similarity ≤ a.similarity) results).take topK

end FallbackSearch

/-- Equality of `Except` values is decidable when both component types are. -/
instance {ε α : Type} [DecidableEq ε] [DecidableEq α] : DecidableEq (Except ε α) :=
  fun x y =>
    match x, y with
    | .error e, .error f =>
      if h : e = f then .isTrue (by rw [h]) else .isFalse (by intro hc; cases hc; exact h rfl)
    | .ok a, .ok b =>
      if h : a = b then .isTrue (by rw [h]) else .isFalse (by intro hc; cases hc; exact h rfl)
    | .error _, .ok _ => .isFalse (by intro hc; cases hc)
    | .ok _, .error _ => .isFalse (by intro hc; cases hc)

namespace BinaryEmbeddingsService

/-- C1, counterexample.  The record whose `code` is the byte sequence
`[97, 0, 98]` (a string containing an interior NUL) encodes fine, but
decoding stops the field at the NUL scan of `decodeString` and returns
`[97]`: the string fields are not reproduced exactly. -/
theorem C1_roundtrip_counterexample :
    ((embeddingsToBinary (fun v : ℕ => v)
        [⟨[97, 0, 98], [98], [99], [100], [101], [], [1], [2]⟩]
        ⟨[111], [109], 1, 0⟩).toOption.bind
      fun buf => (binaryToEmbeddings (fun w : ℕ => w) buf).toOption.map
        fun p => p.1.map (fun r => r.code))
      = some [[97]] ∧ [97] ≠ [97, 0, 98] := by
  decide

/-- C1, amended.  For every non-empty collection whose variable-width string
fields are NUL-free byte strings shorter than 2^16, whose vectors all share
the first record's length with float32 bit patterns in 32-bit range, whose
count and dimension fit 32 bits, and whose metadata provider/model are
NUL-free byte strings of at most 128 bytes: decoding the encoded buffer
succeeds and reproduces every record in order — string fields exactly,
vectors up to float32 rounding (`unbits32 ∘ bits32`), and the provider/model
ids exactly (stamped onto each record from the header). -/
theorem C1_roundtrip_amended {F : Type}
    (bits32 : F → ℕ) (unbits32 : ℕ → F)
    (e0 : HSCodeEmbedding F) (tl : List (HSCodeEmbedding F))
    (meta : EmbeddingMetadata)
    (hclean : ∀ r ∈ e0 :: tl, cleanRecord r)
    (hdim : ∀ r ∈ e0 :: tl, r.embedding.length = e0.embedding.length)
    (hv : ∀ r ∈ e0 :: tl, ∀ v ∈ r.embedding, bits32 v < 4294967296)
    (hcount : (e0 :: tl).length < 4294967296)
    (hdim32 : e0.embedding.length < 4294967296)
    (hprovLen : meta.provider.length ≤ 128)
    (hprovB : ∀ b ∈ meta.provider, b < 256) (hprov0 : ∀ b ∈ meta.provider, b ≠ 0)
    (hmdlLen : meta.model.length ≤ 128)
    (hmdlB : ∀ b ∈ meta.model, b < 256) (hmdl0 : ∀ b ∈ meta.model, b ≠ 0) :
    ∃ buf, embeddingsToBinary bits32 (e0 :: tl) meta = .ok buf ∧
      binaryToEmbeddings unbits32 buf
        = .ok ((e0 :: tl).map (decodedRecord bits32 unbits32 meta.provider meta.model),
            ⟨VERSION, e0.embedding.length, (e0 :: tl).length,
              meta.provider, meta.model⟩) := by
  refine ⟨_, rfl, ?_⟩
  exact binaryToEmbeddings_embeddingsToBinary bits32 unbits32 e0 tl meta _ rfl
    hclean hdim hv hcount hdim32 hprovLen hprovB hprov0 hmdlLen hmdlB hmdl0

/-- C1, amended, witness at a concrete one-record collection. -/
theorem C1_roundtrip_amended_witness :
    ∃ buf, embeddingsToBinary (fun v : ℕ => v % 4294967296)
        [⟨[104], [105], [106], [107], [108], [3], [1], [2]⟩]
        ⟨[112], [113], 1, 1⟩ = .ok buf ∧
      binaryToEmbeddings (fun w : ℕ => w) buf
        = .ok ([⟨[104], [105], [106], [107], [108], [3], [112], [113]⟩],
            ⟨VERSION, 1, 1, [112], [113]⟩) := by
  have h := C1_roundtrip_amended (fun v : ℕ => v % 4294967296) (fun w : ℕ => w)
    ⟨[104], [105], [106], [107], [108], [3], [1], [2]⟩ [] ⟨[112], [113], 1, 1⟩
    (by decide) (by decide) (by decide) (by decide) (by decide)
    (by decide) (by decide) (by decide) (by decide) (by decide) (by decide)
  simpa [decodedRecord, VERSION] using h

/-- C2, counterexample.  A 16-byte buffer carrying a valid magic and version
but truncated before the 256 bytes of provider/model the header layout
declares is not rejected: the clamping slices silently yield empty
provider/model strings and decode returns successfully — a structural
violation (truncated buffer) without an error. -/
theorem C2_decode_counterexample :
    (u32be MAGIC_NUMBER ++ u32be VERSION ++ u32be 0 ++ u32be 0).length = 16 ∧
    binaryToEmbeddings (fun w : ℕ => w)
        (u32be MAGIC_NUMBER ++ u32be VERSION ++ u32be 0 ++ u32be 0)
      = .ok ([], ⟨1, 0, 0, [], []⟩) := by
  decide

/-- C2, amended.  The decoder fails with a distinct error kind for each
violation it does detect — `rangeError` when a multi-byte read crosses the
end of the buffer (here: a buffer shorter than the magic), `invalidFormat`
for a wrong magic, `unsupportedVersion` (carrying the read value) for an
unrecognized version — and a successful decode always returns exactly the
declared number of records; but truncation confined to the byte-slice
regions is clamped silently rather than rejected (see the counterexample). -/
theorem C2_decode_amended {F : Type} (unbits32 : ℕ → F) (buf : List ℕ) :
    (buf.length < 4 → binaryToEmbeddings unbits32 buf = .error .rangeError) ∧
    (∀ m, readU32 buf 0 = some m → m ≠ MAGIC_NUMBER →
      binaryToEmbeddings unbits32 buf = .error .invalidFormat) ∧
    (∀ v, readU32 buf 0 = some MAGIC_NUMBER → readU32 buf 4 = some v →
      v ≠ VERSION →
      binaryToEmbeddings unbits32 buf = .error (.unsupportedVersion v)) ∧
    (∀ p, binaryToEmbeddings unbits32 buf = .ok p → p.1.length = p.2.totalCodes) := by
  refine ⟨fun h => binaryToEmbeddings_short unbits32 buf h,
    fun m h0 hm => binaryToEmbeddings_invalidFormat unbits32 buf m h0 hm,
    fun v h0 h4 hv => binaryToEmbeddings_unsupportedVersion unbits32 buf v h0 h4 hv,
    fun p h => binaryToEmbeddings_count unbits32 buf p h⟩

/-- C2, amended, witness: a 3-byte buffer range-errors; a zeroed magic is an
invalid-format error; a version-2 buffer is an unsupported-version error. -/
theorem C2_decode_amended_witness :
    binaryToEmbeddings (fun w : ℕ => w) [1, 2, 3] = .error .rangeError ∧
    binaryToEmbeddings (fun w : ℕ => w) [0, 0, 0, 0] = .error .invalidFormat ∧
    binaryToEmbeddings (fun w : ℕ => w) (u32be MAGIC_NUMBER ++ u32be 2)
      = .error (.unsupportedVersion 2) := by
  refine ⟨(C2_decode_amended (fun w : ℕ => w) [1, 2, 3]).1 (by decide),
    (C2_decode_amended (fun w : ℕ => w) [0, 0, 0, 0]).2.1 0 (by decide) (by decide),
    (C2_decode_amended (fun w : ℕ => w) (u32be MAGIC_NUMBER ++ u32be 2)).2.2.1 2
      (by decide) (by decide) (by decide)⟩

/-- C8, counterexample.  For a 65536-byte field the 2-byte prefix wraps mod
2^16: the prefix written by the encoder reads back as 0, not the actual byte
length 65536, so the field is effectively truncated to nothing on decode. -/
theorem C8_length_prefix_counterexample :
    readU16 (encodeField (List.replicate 65536 (97 : ℕ))) 0 = some 0 ∧
    (List.replicate 65536 (97 : ℕ)).length = 65536 := by
  have hlen : (encodeString (List.replicate 65536 (97 : ℕ))).length = 65536 := by
    rw [encodeString_length, List.length_replicate]
  have h := readU16_append [] (encodeString (List.replicate 65536 (97 : ℕ))) 65536
  rw [List.nil_append, List.length_nil] at h
  have hmod : (65536 : ℕ) % 65536 = 0 := by norm_num
  rw [hmod] at h
  constructor
  · rw [encodeField, hlen]
    exact h
  · exact List.length_replicate 65536 97

/-- C8, amended.  Whenever a variable-width field is a NUL-free byte string
of fewer than 2^16 bytes (the prefix is the byte length mod 2^16 in
general), the 2-byte prefix the encoder writes reads back as exactly the
field's byte length, the field decodes unchanged, and the decoder resumes at
precisely the end of the field's encoding, whatever bytes follow — so no
in-range variable-width field is truncated and subsequent fields are not
corrupted. -/
theorem C8_length_prefix_amended (f rest : List ℕ) (hf : cleanString f) :
    readU16 (encodeField f ++ rest) 0 = some f.length ∧
    readField (encodeField f ++ rest) 0 = some (f, (encodeField f).length) := by
  constructor
  · have h := readU16_append [] (encodeString f) (encodeString f).length
    rw [List.nil_append] at h
    rw [encodeField]
    rw [encodeString_length] at h ⊢
    rw [Nat.mod_eq_of_lt hf.1] at h
    simpa using h
  · have h := readField_at (encodeField f ++ rest) [] rest f 0 (by simp) (by simp) hf
    rw [h, encodeField_length]

/-- C8, amended, witness at a concrete field with trailing bytes. -/
theorem C8_length_prefix_amended_witness :
    readU16 (encodeField [97, 98, 99] ++ [5, 6]) 0 = some 3 ∧
    readField (encodeField [97, 98, 99] ++ [5, 6]) 0
      = some ([97, 98, 99], (encodeField [97, 98, 99]).length) :=
  C8_length_prefix_amended [97, 98, 99] [5, 6] (by decide)

end BinaryEmbeddingsService

namespace ClientVectorSearch

/-- Case analysis over every path of the loader: either the call returned
normally, or the instance state is untouched. -/
theorem loadPrecomputedEmbeddings_state_or_ok {F : Type} (env : FetchEnv F)
    (unbits32 : ℕ → F) (provider model : String) (s : SearchState F) :
    (loadPrecomputedEmbeddings env unbits32 provider model s).state = s ∨
    (loadPrecomputedEmbeddings env unbits32 provider model s).outcome = .ok () := by
  simp only [loadPrecomputedEmbeddings]
  rcases env (binaryPathOf provider model) with e2 | r
  · exact .inl rfl
  · dsimp only
    by_cases hok : r.ok = true
    · rw [if_pos hok]
      rcases r.bytes with e3 | buffer
      · exact .inl rfl
      · dsimp only
        rcases BinaryEmbeddingsService.binaryToEmbeddings unbits32 buffer with e4 | p
        · exact .inl rfl
        · exact .inr rfl
    · rw [if_neg hok]
      rcases env (jsonPathOf provider model) with e3 | jr
      · exact .inl rfl
      · dsimp only
        by_cases hjok : (!jr.ok) = true
        · rw [if_pos hjok]
          exact .inl rfl
        · rw [if_neg hjok]
          rcases jr.jsonDoc with e4 | d
          · exact .inl rfl
          · exact .inr rfl

/-- Case analysis over every path of the loader: the attempted fetches are
the binary path alone or the binary path then the JSON path. -/
theorem loadPrecomputedEmbeddings_attempted {F : Type} (env : FetchEnv F)
    (unbits32 : ℕ → F) (provider model : String) (s : SearchState F) :
    (loadPrecomputedEmbeddings env unbits32 provider model s).attempted
        = [binaryPathOf provider model] ∨
    (loadPrecomputedEmbeddings env unbits32 provider model s).attempted
        = [binaryPathOf provider model, jsonPathOf provider model] := by
  simp only [loadPrecomputedEmbeddings]
  rcases env (binaryPathOf provider model) with e2 | r
  · exact .inl rfl
  · dsimp only
    by_cases hok : r.ok = true
    · rw [if_pos hok]
      rcases r.bytes with e3 | buffer
      · exact .inl rfl
      · dsimp only
        rcases BinaryEmbeddingsService.binaryToEmbeddings unbits32 buffer with e4 | p
        · exact .inl rfl
        · exact .inl rfl
    · rw [if_neg hok]
      rcases env (jsonPathOf provider model) with e3 | jr
      · exact .inr rfl
      · dsimp only
        by_cases hjok : (!jr.ok) = true
        · rw [if_pos hjok]
          exact .inr rfl
        · rw [if_neg hjok]
          rcases jr.jsonDoc with e4 | d
          · exact .inr rfl
          · exact .inr rfl

/-- C3, counterexample.  When the binary `fetch` rejects (a transport
error), the exception lands in the catch-all handler and the load fails
immediately: the JSON resource at the same key is never attempted,
contradicting the claim that a transport error also falls through to the
textual resource. -/
theorem C3_loader_counterexample :
    (loadPrecomputedEmbeddings (F := ℕ) (fun _ => .reject "network error")
        (fun w => w) "OpenAI" "3.small" ⟨[], "", ""⟩).attempted
      = ["/data/openai-embeddings/3-small.bin"] ∧
    (loadPrecomputedEmbeddings (F := ℕ) (fun _ => .reject "network error")
        (fun w => w) "OpenAI" "3.small" ⟨[], "", ""⟩).outcome
      = .error "Could not load embeddings for OpenAI/3.small" ∧
    "/data/openai-embeddings/3-small.json" ∉
      (loadPrecomputedEmbeddings (F := ℕ) (fun _ => .reject "network error")
        (fun w => w) "OpenAI" "3.small" ⟨[], "", ""⟩).attempted := by
  decide

/-- C3, amended.  The loader always attempts the binary resource at the
canonical key first (lowercased provider, model with `.` replaced by `-`);
when the binary fetch resolves with a non-ok status it attempts the JSON
resource at the same key; but when the binary fetch rejects (transport
error) the load fails at once without attempting the JSON resource. -/
theorem C3_loader_amended {F : Type} (env : FetchEnv F) (unbits32 : ℕ → F)
    (provider model : String) (s : SearchState F) :
    ((loadPrecomputedEmbeddings env unbits32 provider model s).attempted.head?
        = some (binaryPathOf provider model)) ∧
    (∀ r, env (binaryPathOf provider model) = .response r → r.ok = false →
      (loadPrecomputedEmbeddings env unbits32 provider model s).attempted
        = [binaryPathOf provider model, jsonPathOf provider model]) ∧
    (∀ e, env (binaryPathOf provider model) = .reject e →
      (loadPrecomputedEmbeddings env unbits32 provider model s).attempted
        = [binaryPathOf provider model] ∧
      (loadPrecomputedEmbeddings env unbits32 provider model s).outcome
        = .error (loadErrorMessage provider model)) := by
  refine ⟨?_, ?_, ?_⟩
  · rcases loadPrecomputedEmbeddings_attempted env unbits32 provider model s with h | h <;>
      rw [h] <;> rfl
  · intro r hr hok
    simp only [loadPrecomputedEmbeddings, hr]
    rw [if_neg (by rw [hok]; simp)]
    rcases env (jsonPathOf provider model) with e2 | jr
    · rfl
    · dsimp only
      by_cases hjok : (!jr.ok) = true
      · rw [if_pos hjok]
      · rw [if_neg hjok]
        rcases jr.jsonDoc with e3 | d
        · rfl
        · rfl
  · intro e he
    simp [loadPrecomputedEmbeddings, he]

/-- C3, amended, witness: a rejecting environment makes the load attempt
only the binary path and fail with the loader's catch-all message. -/
theorem C3_loader_amended_witness :
    (loadPrecomputedEmbeddings (F := ℕ) (fun _ => .reject "offline")
        (fun w => w) "Cohere" "embed-v3.0" ⟨[], "", ""⟩).attempted
      = [binaryPathOf "Cohere" "embed-v3.0"] ∧
    (loadPrecomputedEmbeddings (F := ℕ) (fun _ => .reject "offline")
        (fun w => w) "Cohere" "embed-v3.0" ⟨[], "", ""⟩).outcome
      = .error (loadErrorMessage "Cohere" "embed-v3.0") :=
  (C3_loader_amended (F := ℕ) (fun _ => .reject "offline") (fun w => w)
    "Cohere" "embed-v3.0" ⟨[], "", ""⟩).2.2 "offline" rfl

/-- C10.  Whenever a load throws — rejected fetch, missing resources, failed
body read, decode or parse error — the instance state (cached records and
current provider/model keys) is exactly what it was before the call: every
assignment in the source happens after the last fallible operation of its
branch. -/
theorem C10_load_atomicity {F : Type} (env : FetchEnv F) (unbits32 : ℕ → F)
    (provider model : String) (s : SearchState F) (e : String)
    (h : (loadPrecomputedEmbeddings env unbits32 provider model s).outcome = .error e) :
    (loadPrecomputedEmbeddings env unbits32 provider model s).state = s := by
  refine (loadPrecomputedEmbeddings_state_or_ok env unbits32 provider model s).resolve_right ?_
  intro hok
  rw [h] at hok
  cases hok

/-- C10, witness: both resources missing (404 on every path) leaves a
non-trivial pre-existing state untouched. -/
theorem C10_load_atomicity_witness :
    (loadPrecomputedEmbeddings (F := ℕ)
        (fun _ => .response ⟨false, .error "no body", .error "no body"⟩)
        (fun w => w) "openai" "m2"
        ⟨[⟨[1], [2], [3], [4], [5], [6], [7], [8]⟩], "cohere", "m1"⟩).state
      = ⟨[⟨[1], [2], [3], [4], [5], [6], [7], [8]⟩], "cohere", "m1"⟩ :=
  C10_load_atomicity (F := ℕ)
    (fun _ => .response ⟨false, .error "no body", .error "no body"⟩)
    (fun w => w) "openai" "m2"
    ⟨[⟨[1], [2], [3], [4], [5], [6], [7], [8]⟩], "cohere", "m1"⟩
    (loadErrorMessage "openai" "m2") (by decide)

/-! ## Similarity-engine lemmas -/

theorem foldl_add_eq_sum {M : Type} [AddCommMonoid M] (l : List M) (c : M) :
    l.foldl (· + ·) c = c + l.sum := by
  induction l generalizing c with
  | nil => simp
  | cons x t ih => simp [ih (c + x), add_assoc]

theorem dotProduct_eq_sum (a b : List ℝ) :
    dotProduct a b = (List.zipWith (fun x y => x * y) a b).sum := by
  rw [dotProduct, foldl_add_eq_sum, zero_add]

theorem sumSquares_eq_sum (a : List ℝ) :
    sumSquares a = (a.map (fun x => x * x)).sum := by
  rw [sumSquares, foldl_add_eq_sum, zero_add]

theorem sumSquares_nil : sumSquares [] = 0 := by
  simp [sumSquares_eq_sum]

theorem sumSquares_cons (x : ℝ) (t : List ℝ) :
    sumSquares (x :: t) = x * x + sumSquares t := by
  simp [sumSquares_eq_sum]

theorem dotProduct_cons (x y : ℝ) (a b : List ℝ) :
    dotProduct (x :: a) (y :: b) = x * y + dotProduct a b := by
  simp [dotProduct_eq_sum]

theorem sumSquares_nonneg (a : List ℝ) : 0 ≤ sumSquares a := by
  rw [sumSquares_eq_sum]
  apply List.sum_nonneg
  intro x hx
  obtain ⟨y, _, rfl⟩ := List.mem_map.mp hx
  exact mul_self_nonneg y

theorem sumSquares_eq_zero_iff (a : List ℝ) :
    sumSquares a = 0 ↔ ∀ x ∈ a, x = 0 := by
  induction a with
  | nil => simp [sumSquares_nil]
  | cons x t ih =>
    rw [sumSquares_cons]
    constructor
    · intro h
      have hx2 : 0 ≤ x * x := mul_self_nonneg x
      have hS : 0 ≤ sumSquares t := sumSquares_nonneg t
      have hx0 : x * x = 0 := by linarith
      have hS0 : sumSquares t = 0 := by linarith
      intro y hy
      rcases List.mem_cons.mp hy with rfl | hyt
      · exact mul_self_eq_zero.mp hx0
      · exact (ih.mp hS0) y hyt
    · intro h
      have hx : x = 0 := h x (by simp)
      have ht : sumSquares t = 0 := ih.mpr (fun y hy => h y (by simp [hy]))
      rw [hx, ht]
      ring

theorem dotProduct_self (a : List ℝ) : dotProduct a a = sumSquares a := by
  induction a with
  | nil => simp [dotProduct_eq_sum, sumSquares_nil]
  | cons x t ih => rw [dotProduct_cons, sumSquares_cons, ih]

theorem cauchy_schwarz_step (x y d A B : ℝ) (hd : d ^ 2 ≤ A * B)
    (hA : 0 ≤ A) (hB : 0 ≤ B) :
    (x * y + d) ^ 2 ≤ (x * x + A) * (y * y + B) := by
  rcases eq_or_lt_of_le hB with hB0 | hBpos
  · have hAB : A * B = 0 := by rw [← hB0]; ring
    have hd2 : d ^ 2 = 0 := le_antisymm (by rw [← hAB]; exact hd) (sq_nonneg d)
    have hd0 : d = 0 := pow_eq_zero_iff (two_ne_zero) |>.mp hd2
    subst hd0
    rw [← hB0]
    nlinarith [mul_nonneg hA (sq_nonneg y)]
  · nlinarith [sq_nonneg (x * B - y * d),
      mul_nonneg (add_nonneg (sq_nonneg y) hB) (sub_nonneg.mpr hd)]

theorem cauchy_schwarz_list :
    ∀ (a b : List ℝ), a.length = b.length →
      (dotProduct a b) ^ 2 ≤ sumSquares a * sumSquares b := by
  intro a
  induction a with
  | nil =>
    intro b _
    simp [dotProduct_eq_sum, sumSquares_nil]
  | cons x a2 ih =>
    intro b hb
    cases b with
    | nil => simp at hb
    | cons y b2 =>
      have hlen : a2.length = b2.length := by simpa using hb
      rw [dotProduct_cons, sumSquares_cons, sumSquares_cons]
      exact cauchy_schwarz_step x y (dotProduct a2 b2) (sumSquares a2) (sumSquares b2)
        (ih b2 hlen) (sumSquares_nonneg a2) (sumSquares_nonneg b2)

/-- C5.  For equal-length vectors, `cosineSimilarity` succeeds with a score
in [-1, 1]; a zero magnitude on either side makes the score exactly 0 (never
a NaN or division error); and a non-zero vector against itself scores
exactly 1. -/
theorem C5_cosine_bounds (vecA vecB : List ℝ) (h : vecA.length = vecB.length) :
    ∃ r, cosineSimilarity vecA vecB = .ok r ∧ -1 ≤ r ∧ r ≤ 1 ∧
      ((Real.sqrt (sumSquares vecA) = 0 ∨ Real.sqrt (sumSquares vecB) = 0) → r = 0) ∧
      (vecA = vecB → (∃ x ∈ vecA, x ≠ 0) → r = 1) := by
  rw [cosineSimilarity, if_neg (by omega)]
  by_cases hz : Real.sqrt (sumSquares vecA) = 0 ∨ Real.sqrt (sumSquares vecB) = 0
  · rw [if_pos hz]
    refine ⟨0, rfl, by norm_num, by norm_num, fun _ => rfl, ?_⟩
    intro hab hnz
    exfalso
    obtain ⟨x, hx, hx0⟩ := hnz
    have hS : sumSquares vecA ≠ 0 :=
      fun h0 => hx0 ((sumSquares_eq_zero_iff vecA).mp h0 x hx)
    have hSpos : 0 < sumSquares vecA :=
      lt_of_le_of_ne (sumSquares_nonneg vecA) (Ne.symm hS)
    have hsq : Real.sqrt (sumSquares vecA) ≠ 0 :=
      ne_of_gt (Real.sqrt_pos.mpr hSpos)
    rcases hz with h1 | h2
    · exact hsq h1
    · rw [← hab] at h2
      exact hsq h2
  · rw [if_neg hz]
    push_neg at hz
    obtain ⟨hA0, hB0⟩ := hz
    have hApos : 0 < Real.sqrt (sumSquares vecA) :=
      lt_of_le_of_ne (Real.sqrt_nonneg _) (Ne.symm hA0)
    have hBpos : 0 < Real.sqrt (sumSquares vecB) :=
      lt_of_le_of_ne (Real.sqrt_nonneg _) (Ne.symm hB0)
    have hm : 0 < Real.sqrt (sumSquares vecA) * Real.sqrt (sumSquares vecB) :=
      mul_pos hApos hBpos
    have habs : |dotProduct vecA vecB|
        ≤ Real.sqrt (sumSquares vecA) * Real.sqrt (sumSquares vecB) := by
      rw [← Real.sqrt_sq_eq_abs, ← Real.sqrt_mul (sumSquares_nonneg vecA)]
      exact Real.sqrt_le_sqrt (cauchy_schwarz_list vecA vecB h)
    refine ⟨_, rfl, ?_, ?_, ?_, ?_⟩
    · rw [le_div_iff hm]
      have := neg_abs_le (dotProduct vecA vecB)
      nlinarith [habs]
    · rw [div_le_one hm]
      exact le_trans (le_abs_self _) habs
    · intro hc
      exfalso
      rcases hc with h1 | h2
      · exact hA0 h1
      · exact hB0 h2
    · intro hab _
      subst hab
      rw [dotProduct_self, Real.mul_self_sqrt (sumSquares_nonneg vecA)]
      have hS : sumSquares vecA ≠ 0 := by
        intro h0
        exact hA0 (by rw [h0, Real.sqrt_zero])
      exact div_self hS

/-- C5, witness at the one-dimensional vector `[1]` against itself. -/
theorem C5_cosine_bounds_witness :
    ∃ r, cosineSimilarity [(1 : ℝ)] [(1 : ℝ)] = .ok r ∧ -1 ≤ r ∧ r ≤ 1 ∧
      ((Real.sqrt (sumSquares [(1 : ℝ)]) = 0 ∨ Real.sqrt (sumSquares [(1 : ℝ)]) = 0) → r = 0) ∧
      ([(1 : ℝ)] = [(1 : ℝ)] → (∃ x ∈ [(1 : ℝ)], x ≠ 0) → r = 1) :=
  C5_cosine_bounds [(1 : ℝ)] [(1 : ℝ)] rfl

instance : IsTotal SearchResult (fun a b => b.similarity ≤ a.similarity) :=
  ⟨fun a b => le_total b.similarity a.similarity⟩

instance : IsTrans SearchResult (fun a b => b.similarity ≤ a.similarity) :=
  ⟨fun _ _ _ hab hbc => le_trans hbc hab⟩

theorem sortBySimilarity_sorted (l : List SearchResult) :
    List.Sorted (fun a b => b.similarity ≤ a.similarity) (sortBySimilarity l) :=
  List.sorted_insertionSort _ l

theorem sortBySimilarity_length (l : List SearchResult) :
    (sortBySimilarity l).length = l.length :=
  (List.perm_insertionSort _ l).length_eq

/-- Inserting an element into a list never disturbs the sublist of any score
class: the new element lands in front of its own class (every element it
jumps over has a strictly larger score), everything else keeps its order. -/
theorem orderedInsert_filter (x : SearchResult) (l : List SearchResult) (s : ℝ) :
    (List.orderedInsert (fun a b => b.similarity ≤ a.similarity) x l).filter
        (fun r => decide (r.similarity = s))
      = if x.similarity = s
        then x :: l.filter (fun r => decide (r.similarity = s))
        else l.filter (fun r => decide (r.similarity = s)) := by
  induction l with
  | nil =>
    by_cases hx : x.similarity = s <;> simp [List.orderedInsert, hx]
  | cons y t ih =>
    rw [List.orderedInsert]
    by_cases hxy : y.similarity ≤ x.similarity
    · rw [if_pos hxy]
      by_cases hx : x.similarity = s <;> by_cases hy : y.similarity = s <;>
        simp [List.filter_cons, hx, hy]
    · rw [if_neg hxy]
      by_cases hx : x.similarity = s
      · have hy : ¬(y.similarity = s) := by
          intro hys
          exact hxy (by rw [hys, hx])
        simp [List.filter_cons, hy, ih, hx]
      · by_cases hy : y.similarity = s <;> simp [List.filter_cons, hy, ih, hx]

/-- The engine's stable sort preserves every score class verbatim. -/
theorem sortBySimilarity_filter (l : List SearchResult) (s : ℝ) :
    (sortBySimilarity l).filter (fun r => decide (r.similarity = s))
      = l.filter (fun r => decide (r.similarity = s)) := by
  induction l with
  | nil => rfl
  | cons x t ih =>
    rw [sortBySimilarity, List.insertionSort]
    rw [show List.insertionSort (fun a b => b.similarity ≤ a.similarity) t
      = sortBySimilarity t from rfl]
    rw [orderedInsert_filter, ih]
    by_cases hx : x.similarity = s <;> simp [List.filter_cons, hx]

open BinaryEmbeddingsService

theorem cosineSimilarity_isOk (a b : List ℝ) (h : a.length = b.length) :
    ∃ r, cosineSimilarity a b = .ok r := by
  rw [cosineSimilarity, if_neg (by omega)]
  by_cases hz : Real.sqrt (sumSquares a) = 0 ∨ Real.sqrt (sumSquares b) = 0
  · rw [if_pos hz]
    exact ⟨0, rfl⟩
  · rw [if_neg hz]
    exact ⟨_, rfl⟩

theorem cosineSimilarity_error_of_ne (a b : List ℝ) (h : a.length ≠ b.length) :
    cosineSimilarity a b = .error "Vectors must have same dimension" := by
  rw [cosineSimilarity, if_pos h]

theorem cosineSimilarity_ok_length (a b : List ℝ) (r : ℝ)
    (h : cosineSimilarity a b = .ok r) : a.length = b.length := by
  by_contra hne
  rw [cosineSimilarity_error_of_ne a b hne] at h
  cases h

theorem scoreResults_ok_of_lengths (q : List ℝ) :
    ∀ recs : List (HSCodeEmbedding ℝ), (∀ r ∈ recs, r.embedding.length = q.length) →
      ∃ out, scoreResults q recs = .ok out ∧ out.length = recs.length := by
  intro recs
  induction recs with
  | nil =>
    intro _
    exact ⟨[], rfl, rfl⟩
  | cons r t ih =>
    intro h
    obtain ⟨sim, hsim⟩ := cosineSimilarity_isOk q r.embedding (h r (by simp)).symm
    obtain ⟨rest, hrest, hlen⟩ := ih (fun x hx => h x (by simp [hx]))
    refine ⟨⟨r, sim, "vector"⟩ :: rest, ?_, by simp [hlen]⟩
    rw [scoreResults, hsim, hrest]

theorem scoreResults_lengths_of_ok (q : List ℝ) :
    ∀ (recs : List (HSCodeEmbedding ℝ)) (out : List SearchResult),
      scoreResults q recs = .ok out → ∀ r ∈ recs, r.embedding.length = q.length := by
  intro recs
  induction recs with
  | nil =>
    intro out _ r hr
    cases hr
  | cons r0 t ih =>
    intro out h r hr
    rw [scoreResults] at h
    rcases hc : cosineSimilarity q r0.embedding with e | sim
    · rw [hc] at h
      cases h
    · rw [hc] at h
      rcases hs : scoreResults q t with e | rest
      · rw [hs] at h
        cases h
      · rcases List.mem_cons.mp hr with rfl | hrt
        · exact (cosineSimilarity_ok_length q r.embedding sim hc).symm
        · exact ih rest hs r hrt

theorem search_ok_inv (q : List ℝ) (dims topK : ℕ) (data : List (HSCodeEmbedding ℝ))
    (out : List SearchResult) (h : search q dims data topK = .ok out) :
    ∃ scored, scoreResults q data = .ok scored ∧
      out = (sortBySimilarity scored).take topK := by
  rw [search] at h
  split at h
  · cases h
  split at h
  · cases h
  split at h
  · cases h
  next scored hs =>
    exact ⟨scored, hs, (Except.ok.inj h).symm⟩

theorem search_ok_lengths (q : List ℝ) (dims topK : ℕ)
    (data : List (HSCodeEmbedding ℝ)) (out : List SearchResult)
    (h : search q dims data topK = .ok out) :
    ∀ r ∈ data, r.embedding.length = q.length := by
  obtain ⟨scored, hs, _⟩ := search_ok_inv q dims topK data out h
  exact scoreResults_lengths_of_ok q data scored hs

/-- C7.  Whatever the engine returns is sorted non-increasingly by score,
and every score class appears in exactly its original (scored-map) order:
the output's class sublist is an initial segment of the input's, so repeated
runs on identical input are identical. -/
theorem C7_ranking_order (q : List ℝ) (dims topK : ℕ)
    (data : List (HSCodeEmbedding ℝ)) (scored out : List SearchResult)
    (hscored : scoreResults q data = .ok scored)
    (hout : search q dims data topK = .ok out) :
    List.Sorted (fun a b => b.similarity ≤ a.similarity) out ∧
    ∀ s : ℝ, ∃ t2, scored.filter (fun r => decide (r.similarity = s))
        = out.filter (fun r => decide (r.similarity = s)) ++ t2 := by
  obtain ⟨scored2, hs2, hout2⟩ := search_ok_inv q dims topK data out hout
  rw [hscored] at hs2
  have hsc := Except.ok.inj hs2
  subst hsc
  subst hout2
  constructor
  · exact List.Pairwise.sublist (List.take_sublist topK _) (sortBySimilarity_sorted scored)
  · intro s
    refine ⟨((sortBySimilarity scored).drop topK).filter
      (fun r => decide (r.similarity = s)), ?_⟩
    rw [← sortBySimilarity_filter scored s, ← List.filter_append,
      List.take_append_drop]

/-- A one-dimensional record whose stored vector is `[1]`, for witnesses. -/
def unitRecord : HSCodeEmbedding ℝ := ⟨[], [], [], [], [], [1], [], []⟩

/-- A record whose stored vector has three entries, for the dimension
counterexample. -/
def threeRecord : HSCodeEmbedding ℝ := ⟨[], [], [], [], [], [0, 0, 0], [], []⟩

theorem cosineSimilarity_one : cosineSimilarity [(1 : ℝ)] [(1 : ℝ)] = .ok 1 := by
  rw [cosineSimilarity, if_neg (by simp)]
  have hs : sumSquares [(1 : ℝ)] = 1 := by
    rw [sumSquares_eq_sum]
    norm_num
  have hd : dotProduct [(1 : ℝ)] [(1 : ℝ)] = 1 := by
    rw [dotProduct_eq_sum]
    norm_num
  rw [hs, Real.sqrt_one, if_neg (by norm_num), hd]
  norm_num

theorem scoreResults_unit :
    scoreResults [(1 : ℝ)] [unitRecord] = .ok [⟨unitRecord, 1, "vector"⟩] := by
  rw [scoreResults,
    show unitRecord.embedding = [(1 : ℝ)] from rfl, cosineSimilarity_one]
  rfl

theorem search_unit :
    search [(1 : ℝ)] 1 [unitRecord] 1 = .ok [⟨unitRecord, 1, "vector"⟩] := by
  rw [search, if_neg (by simp), if_neg (by simp), scoreResults_unit]
  rfl

/-- C7, witness at a singleton collection with an exactly matching vector. -/
theorem C7_ranking_order_witness :
    List.Sorted (fun a b => b.similarity ≤ a.similarity)
      [(⟨unitRecord, 1, "vector"⟩ : SearchResult)] ∧
    ∀ s : ℝ, ∃ t2,
      [(⟨unitRecord, 1, "vector"⟩ : SearchResult)].filter
          (fun r => decide (r.similarity = s))
        = [(⟨unitRecord, 1, "vector"⟩ : SearchResult)].filter
            (fun r => decide (r.similarity = s)) ++ t2 :=
  C7_ranking_order [(1 : ℝ)] 1 1 [unitRecord] _ _ scoreResults_unit search_unit

/-- C6, counterexample.  A query vector matching `provider.dimensions` but
not the stored vectors' length does throw, but from `cosineSimilarity`, with
the generic message `'Vectors must have same dimension'` — not a
dimension-mismatch error naming both lengths. -/
theorem C6_dimension_counterexample :
    search [(1 : ℝ), 2] 2 [threeRecord] 10
      = .error "Vectors must have same dimension" := by
  rw [search, if_neg (by simp), if_neg (by simp), scoreResults,
    show threeRecord.embedding = [(0 : ℝ), 0, 0] from rfl,
    cosineSimilarity_error_of_ne _ _ (by simp)]

/-- C6, amended.  A query vector whose length differs from the provider's
declared `dimensions` throws the dimension-mismatch error naming both
lengths (source `'Embedding dimension mismatch: query (a) vs expected
(b)'`); a query matching `dimensions` but differing from some stored
vector's length still throws (never truncating or padding, witness the
counterexample's generic message); and whenever search succeeds, every
stored vector has exactly the query's length. -/
theorem C6_dimension_amended (q : List ℝ) (dims topK : ℕ)
    (data : List (HSCodeEmbedding ℝ)) :
    (data ≠ [] → q.length ≠ dims →
      search q dims data topK = .error ("Embedding dimension mismatch: query ("
        ++ toString q.length ++ ") vs expected (" ++ toString dims ++ ")")) ∧
    (∀ r ∈ data, r.embedding.length ≠ q.length →
      ∃ e, search q dims data topK = .error e) ∧
    (∀ out, search q dims data topK = .ok out →
      ∀ r ∈ data, r.embedding.length = q.length) := by
  refine ⟨?_, ?_, ?_⟩
  · intro hne hd
    rw [search, if_neg (by simpa [List.length_eq_zero] using hne), if_pos hd]
  · intro r hr hlen
    rcases hs : search q dims data topK with e | out
    · exact ⟨e, rfl⟩
    · exact absurd (search_ok_lengths q dims topK data out hs r hr) hlen
  · intro out h
    exact search_ok_lengths q dims topK data out h

/-- C6, amended, witness: a two-entry query against declared dimension 1. -/
theorem C6_dimension_amended_witness :
    search [(1 : ℝ), 2] 1 [unitRecord] 3
      = .error ("Embedding dimension mismatch: query ("
        ++ toString ([(1 : ℝ), 2]).length ++ ") vs expected (" ++ toString 1 ++ ")") :=
  (C6_dimension_amended [(1 : ℝ), 2] 1 3 [unitRecord]).1 (by simp) (by simp)

/-- C9, counterexample.  An empty loaded collection makes `search` throw
`'No precomputed embeddings available'` instead of returning
`min(topK, 0) = 0` results — requesting `topK = 5` against an empty
collection does not return 0 results, it throws. -/
theorem C9_topk_counterexample :
    search [(1 : ℝ)] 1 [] 5 = .error "No precomputed embeddings available" := by
  rw [search,
    if_pos (show (([] : List (HSCodeEmbedding ℝ))).length = 0 from rfl)]

/-- C9, amended.  For every non-empty loaded collection whose stored vectors
match the query's length, search succeeds and returns exactly
`min(topK, collection.size)` results; in particular a `topK` exceeding the
collection size returns exactly `collection.size` results and does not
throw. -/
theorem C9_topk_amended (q : List ℝ) (dims topK : ℕ)
    (data : List (HSCodeEmbedding ℝ)) (hne : data ≠ [])
    (hdims : q.length = dims)
    (hvlen : ∀ r ∈ data, r.embedding.length = q.length) :
    ∃ out, search q dims data topK = .ok out ∧
      out.length = min topK data.length := by
  obtain ⟨scored, hscored, hlen⟩ := scoreResults_ok_of_lengths q data hvlen
  refine ⟨(sortBySimilarity scored).take topK, ?_, ?_⟩
  · rw [search, if_neg (by simpa [List.length_eq_zero] using hne),
      if_neg (by omega), hscored]
  · rw [List.length_take, sortBySimilarity_length, hlen]


/-- C9, amended, witness: `topK = 5` against a singleton collection returns
exactly one result. -/
theorem C9_topk_amended_witness :
    ∃ out, search [(1 : ℝ)] 1 [unitRecord] 5 = .ok out ∧
      out.length = min 5 [unitRecord].length :=
  C9_topk_amended [(1 : ℝ)] 1 5 [unitRecord] (by simp) rfl
    (by intro r hr; rw [List.mem_singleton] at hr; subst hr; rfl)

end ClientVectorSearch

namespace FallbackSearch

/-- C4.  The language-aware ranker scores against the blob selected by the
language: with both alt fields absent the alt-language blob (and hence the
score) coincides with the non-alt one; with alt fields present the blob is
built from them; and any non-empty query word occurring in the blob gives
the record a strictly positive score, so a record with no alt-language
description, searched under the alt language, is still matchable via its
non-alt description. -/
theorem C4_language_fallback (queryWords : List (List Char)) (hsCode : HSCode) :
    (hsCode.description_vi = none → hsCode.keywords_vi = none →
      searchBlob .vi hsCode = searchBlob .en hsCode ∧
      calculateKeywordScore queryWords hsCode .vi
        = calculateKeywordScore queryWords hsCode .en) ∧
    (∀ d k, hsCode.description_vi = some d → hsCode.keywords_vi = some k →
      searchBlob .vi hsCode
        = (d ++ [' '] ++ List.intercalate [' '] k).map Char.toLower) ∧
    (∀ word ∈ queryWords, word ≠ [] → word <:+: searchBlob .vi hsCode →
      0 < calculateKeywordScore queryWords hsCode .vi) := by
  refine ⟨?_, ?_, ?_⟩
  · intro hd hk
    have hblob : searchBlob Language.vi hsCode = searchBlob Language.en hsCode := by
      simp [searchBlob, hd, hk]
    exact ⟨hblob, by simp only [calculateKeywordScore, hblob]⟩
  · intro d k hd hk
    simp [searchBlob, hd, hk]
  · intro word hw hword hinf
    have htpos : 0 < (searchBlob Language.vi hsCode).length := by
      simp only [searchBlob, List.length_map, List.length_append,
        List.length_cons, List.length_nil]
      omega
    simp only [calculateKeywordScore]
    rw [if_neg (by omega)]
    set text := searchBlob Language.vi hsCode with htext
    set matched := queryWords.filter (fun w => decide (w <:+: text)) with hmatched
    have hwm : word ∈ matched := by
      rw [hmatched]
      exact List.mem_filter.mpr ⟨hw, by simpa using hinf⟩
    have hmpos : 0 < matched.length := List.length_pos_of_mem hwm
    have hqpos : 0 < queryWords.length := List.length_pos_of_mem hw
    have htQ : (0 : ℚ) < (text.length : ℚ) := by exact_mod_cast htpos
    have hterm : (0 : ℚ) < min ((word.length : ℚ) / (text.length : ℚ) * 10) 1 := by
      apply lt_min _ zero_lt_one
      apply mul_pos (div_pos _ htQ) (by norm_num)
      exact_mod_cast List.length_pos.mpr hword
    have hsum : min ((word.length : ℚ) / (text.length : ℚ) * 10) 1
        ≤ (matched.map (fun w => min ((w.length : ℚ) / (text.length : ℚ) * 10) 1)).sum := by
      apply List.single_le_sum
      · intro x hx
        obtain ⟨w, _, rfl⟩ := List.mem_map.mp hx
        apply le_min _ zero_le_one
        positivity
      · exact List.mem_map_of_mem _ hwm
    apply lt_min _ zero_lt_one
    apply mul_pos (lt_of_lt_of_le hterm hsum)
    exact div_pos (by exact_mod_cast hmpos) (by exact_mod_cast hqpos)

/-- C4, witness: a record carrying only an English description, searched
under Vietnamese, scores identically to the English search and is matched
(positive score) through its English description. -/
theorem C4_language_fallback_witness :
    searchBlob .vi ⟨['0'], [], none, ['a', 'p', 'p', 'l', 'e'], none, [], [], none, none⟩
      = searchBlob .en ⟨['0'], [], none, ['a', 'p', 'p', 'l', 'e'], none, [], [], none, none⟩ ∧
    0 < calculateKeywordScore [['a', 'p', 'p', 'l', 'e']]
        ⟨['0'], [], none, ['a', 'p', 'p', 'l', 'e'], none, [], [], none, none⟩ .vi :=
  ⟨((C4_language_fallback [['a', 'p', 'p', 'l', 'e']]
      ⟨['0'], [], none, ['a', 'p', 'p', 'l', 'e'], none, [], [], none, none⟩).1 rfl rfl).1,
    (C4_language_fallback [['a', 'p', 'p', 'l', 'e']]
      ⟨['0'], [], none, ['a', 'p', 'p', 'l', 'e'], none, [], [], none, none⟩).2.2
      ['a', 'p', 'p', 'l', 'e'] (by simp) (by decide) (by decide)⟩

end FallbackSearch
